import Mathlib

/-!
Verification development for the ent-query execution engine.

The definitions below are a shallow embedding of the repository's core:
  - src/lib/query.js            (class Query: execute, _invokeHandler, _handleError, cancel)
  - the QueryResult module      (constructor, _initDatastream, shim, stream, toArray, cancel,
                                 fieldDefaults)
  - src/lib/field-configurator.js (class FieldConfigurator)

JavaScript objects holding field configuration are modelled as functions from
field names to optional entries; lodash merge operations (_.assign, _.defaults)
become explicit record merges on optional components.  Streams are modelled as
item sequences (records or an in-stream error) consumed by the pull loop that
QueryResult.stream() builds around the composed flow; the event-loop deferral
performed with setImmediate is modelled by draining a scheduled resolution
after all synchronous handler actions have run.
-/

/-- A field configuration entry: label, position and the nested type mapping.
The source stores the type-mapping shorthand as an object with a single type
key; we keep just that type string.  Absent JS keys are modelled with none. -/
structure Entry where
  label : Option String
  position : Option Nat
  typeMapping : Option String
deriving DecidableEq

/-- The field hash keyed by field name (query.fields / queryResult.fields). -/
def FieldMap : Type := String → Option Entry

/-- The empty field hash. -/
def emptyFieldMap : FieldMap := fun _ => none

/-- Functional update of one key of a field hash. -/
def updateField (m : FieldMap) (n : String) (e : Entry) : FieldMap :=
  fun k => if k = n then some e else m k

/-- Shallow merge of entry keys with the first argument winning, as produced
by lodash defaults applied to two entry objects: keys present in the first
object persist, keys absent from it are filled from the second. -/
def entryDefaults (o v : Entry) : Entry :=
  { label := o.label.orElse (fun _ => v.label),
    position := o.position.orElse (fun _ => v.position),
    typeMapping := o.typeMapping.orElse (fun _ => v.typeMapping) }

/-- The update performed per key by shim.fields in the QueryResult module:
fields k becomes lodash defaults of the empty object, the existing entry and
the incoming entry, so an existing entry wins key-by-key and a missing entry
is replaced by the incoming one. -/
def mergeEntry (old : Option Entry) (v : Entry) : Entry :=
  match old with
  | none => v
  | some o => entryDefaults o v

/-- The entry assigned to the i-th name of a bare array argument of
shim.fields: an object holding only position i. -/
def posEntry (i : Nat) : Entry :=
  { label := none, position := some i, typeMapping := none }

/-- The per-key merge loop of shim.fields: for each incoming pair the field
hash entry is replaced by the defaults-merge of the existing entry and the
incoming one (query-result shim, fields). -/
def shimFieldsMerge (m : FieldMap) (kvs : List (String × Entry)) : FieldMap :=
  kvs.foldl (fun acc kv => updateField acc kv.1 (mergeEntry (acc kv.1) kv.2)) m

/-- The pair list built by shim.fields from a bare array of names: the i-th
name is paired with an entry holding position i (the map with index over the
array). -/
def shimFieldsPairs : List String → Nat → List (String × Entry)
  | [], _ => []
  | n :: rest, i => (n, posEntry i) :: shimFieldsPairs rest (i + 1)

/-- shim.fields applied to a bare array of field names (query-result shim):
builds the name-to-position pairs and merges them into the field hash. -/
def shimFieldsArray (names : List String) (m : FieldMap) : FieldMap :=
  shimFieldsMerge m (shimFieldsPairs names 0)

/-- QueryResult.fieldDefaults: lodash defaults on the field hash itself, so a
default entry is used only for field names absent from the current hash. -/
def fieldDefaultsMap (m d : FieldMap) : FieldMap :=
  fun k => (m k).orElse (fun _ => d k)

/-! ### FieldConfigurator (src/lib/field-configurator.js) -/

/-- The runtime error class raised by FieldConfigurator.configure: the method
body reads the identifiers self and lodash underscore, and neither is bound
anywhere in the module (the file contains no require and no local binding),
so evaluating the assignment raises a ReferenceError before any mutation. -/
inductive JsRefError where
  | referenceError
deriving DecidableEq

/-- FieldConfigurator: holds the shared field hash and the selected name. -/
structure FieldConfigurator where
  fields : FieldMap
  field : String

/-- FieldConfigurator.configure: the source assigns through the unbound
identifier self and calls the unbound identifier underscore, so every call
throws a ReferenceError and the field hash is never updated. -/
def FieldConfigurator.configure (_fc : FieldConfigurator) (_config : Entry) :
    Except JsRefError FieldConfigurator :=
  .error .referenceError

/-- FieldConfigurator.label: defers to configure with a label-only entry. -/
def FieldConfigurator.label (fc : FieldConfigurator) (l : String) :
    Except JsRefError FieldConfigurator :=
  fc.configure { label := some l, position := none, typeMapping := none }

/-- FieldConfigurator.position: defers to configure with a position entry. -/
def FieldConfigurator.position (fc : FieldConfigurator) (p : Nat) :
    Except JsRefError FieldConfigurator :=
  fc.configure { label := none, position := some p, typeMapping := none }

/-- FieldConfigurator.type: shorthand that defers to configure with a nested
type mapping holding the given type string. -/
def FieldConfigurator.fieldType (fc : FieldConfigurator) (t : String) :
    Except JsRefError FieldConfigurator :=
  fc.configure { label := none, position := none, typeMapping := some t }

/-- The chained configuration of claim C10 on a fresh configurator for field
x: label, then position, then type, each step sequenced through the thrown
ReferenceError as Except. -/
def fcChain : Except JsRefError FieldConfigurator :=
  ((FieldConfigurator.mk emptyFieldMap "x").label "L").bind
    (fun fc => (fc.position 2).bind (fun fc2 => fc2.fieldType "T"))

/-! ### Query handler invocation (src/lib/query.js, _invokeHandler) -/

/-- A JavaScript value passed as the first argument of reply: an Error
instance, a truthy non-Error data value, or a nullish value. -/
inductive JsVal (ε δ : Type) where
  | error (e : ε)
  | data (d : δ)
  | nullish
deriving DecidableEq

/-- True exactly when the value is an Error instance and truthy, the guard
tested by reply before rejecting. -/
def isErrorVal {ε δ : Type} : JsVal ε δ → Bool
  | .error _ => true
  | _ => false

/-- The result data computed by reply from its two arguments, data or err:
the second argument when supplied, otherwise the first argument when it is a
truthy non-Error value, otherwise nothing.  (The first argument reaching this
computation is never an Error: that case rejects first.) -/
def replyData {ε δ : Type} (a1 : JsVal ε δ) (a2 : Option δ) : Option δ :=
  match a2 with
  | some d => some d
  | none =>
    match a1 with
    | .data d => some d
    | _ => none

/-- The QueryResult state observable through the execution promise: the field
hash copied from the query, the selected count, the cancelled flag and the
reply data the source stream is built from (QueryResult constructor). -/
structure QRA (δ : Type) where
  fields : FieldMap
  selected : Option Nat
  cancelled : Bool
  data : Option δ

/-- QueryResult construction as performed when reply fires: fields are a copy
of the query's field hash, selected is unset, the cancelled flag is taken
from the owning query at construction time (the constructor cancels itself
when the query is already cancelled), and the data is whatever reply
supplied. -/
def mkQRA {δ : Type} (f : FieldMap) (cancelled : Bool) (d : Option δ) : QRA δ :=
  { fields := f, selected := none, cancelled := cancelled, data := d }

/-- A metadata operation available on the configuration shim returned by
reply: bulk field configuration from an array or a map, or the selected
count (query-result shim; the fields and selected members). -/
inductive ShimOp where
  | fieldsArr (names : List String)
  | fieldsMap (kvs : List (String × Entry))
  | selectedOp (n : Nat)

/-- Applying one shim operation to the live QueryResult. -/
def applyShimOp {δ : Type} (op : ShimOp) (r : QRA δ) : QRA δ :=
  match op with
  | .fieldsArr names => { r with fields := shimFieldsArray names r.fields }
  | .fieldsMap kvs => { r with fields := shimFieldsMerge r.fields kvs }
  | .selectedOp n => { r with selected := some n }

/-- Applying a sequence of shim operations left to right. -/
def applyShimOps {δ : Type} (ops : List ShimOp) (r : QRA δ) : QRA δ :=
  ops.foldl (fun q op => applyShimOp op q) r

/-- One synchronous step of the handler's execution timeline inside
_invokeHandler: a call to reply, a configuration call on the shim returned by
the first reply, a synchronous throw, or a call to query.cancel() landing
while the handler runs. -/
inductive HEvent (ε δ : Type) where
  | replyCall (a1 : JsVal ε δ) (a2 : Option δ)
  | shimOp (op : ShimOp)
  | throwErr (e : ε)
  | cancelCall

/-- True exactly for reply calls. -/
def isReplyCall {ε δ : Type} : HEvent ε δ → Bool
  | .replyCall _ _ => true
  | _ => false

/-- The state threaded through the handler timeline: the query's cancelled
flag, the armed flag of the once-guarded reply, the QueryResult created by
the first effective reply (the target of the cached shim), the rejection (a
synchronous reject wins over the deferred resolve), and whether a resolve has
been scheduled with setImmediate. -/
structure InvokeState (ε δ : Type) where
  cancelled : Bool
  onceFired : Bool
  qr : Option (QRA δ)
  rejected : Option ε
  resolveScheduled : Bool

/-- The pristine state when the handler starts. -/
def invokeInit {ε δ : Type} : InvokeState ε δ :=
  { cancelled := false, onceFired := false, qr := none, rejected := none,
    resolveScheduled := false }

/-- The body of the once-guarded reply: a second call is a no-op; the first
call rejects when its first argument is an Error instance, and otherwise
builds the QueryResult from the reply data and schedules the resolution on
the next tick via setImmediate, leaving the shim pointing at that result. -/
def replyOnce {ε δ : Type} (f : FieldMap) (st : InvokeState ε δ)
    (a1 : JsVal ε δ) (a2 : Option δ) : InvokeState ε δ :=
  if st.onceFired then st
  else
    let st1 := { st with onceFired := true }
    match a1 with
    | .error e =>
      if st1.rejected.isNone then { st1 with rejected := some e } else st1
    | _ =>
      { st1 with
        qr := some (mkQRA f st1.cancelled (replyData a1 a2))
        resolveScheduled := true }

/-- One step of the handler timeline.  A cancel call sets the query's
cancelled flag and then fires the cancel event, whose registered listener is
the reply itself invoked with no arguments.  A shim operation mutates the
QueryResult created by the first reply, when one exists.  A synchronous throw
rejects the execution promise when it is not already rejected (the deferred
resolve has not run yet within the same tick, so a rejection wins). -/
def hstep {ε δ : Type} (f : FieldMap) (st : InvokeState ε δ) :
    HEvent ε δ → InvokeState ε δ
  | .replyCall a1 a2 => replyOnce f st a1 a2
  | .cancelCall => replyOnce f { st with cancelled := true } .nullish none
  | .shimOp op => { st with qr := st.qr.map (applyShimOp op) }
  | .throwErr e =>
    if st.rejected.isNone then { st with rejected := some e } else st

/-- The settled value of the execution promise once the current tick's
actions have run and the scheduled resolution has been drained: a rejection
wins, otherwise a scheduled resolve delivers the QueryResult in its final
mutated state, otherwise the promise never settles. -/
def settleOf {ε δ : Type} (st : InvokeState ε δ) : Option (Except ε (QRA δ)) :=
  match st.rejected with
  | some e => some (.error e)
  | none => if st.resolveScheduled then st.qr.map Except.ok else none

/-- _invokeHandler: when the query is already cancelled the handler is
short-circuited and an empty already-cancelled QueryResult resolves at once;
otherwise the handler runs its timeline against the once-guarded reply.  The
boolean records whether the handler was invoked at all. -/
def invokeHandler {ε δ : Type} (f : FieldMap) (cancelled : Bool)
    (script : List (HEvent ε δ)) : Bool × Option (Except ε (QRA δ)) :=
  if cancelled then (false, some (.ok (mkQRA f true none)))
  else (true, settleOf (script.foldl (hstep f) invokeInit))

/-! ### Query execution pipeline (src/lib/query.js, execute / _handleError) -/

/-- An observable event of one execution: the execute event, a pre handler
invocation, the single handler invocation, the queryError event, an error
handler invocation carrying the error, a post handler invocation, and the
result event. -/
inductive QEvent (ε : Type) where
  | executeEv
  | preEv (i : Nat)
  | handlerInvokedEv
  | queryErrorEv (e : ε)
  | errHandlerEv (i : Nat) (e : ε)
  | postEv (i : Nat)
  | resultEv

/-- True exactly for the handler invocation event. -/
def isHandlerInvokedEv {ε : Type} : QEvent ε → Bool
  | .handlerInvokedEv => true
  | _ => false

/-- _handleError: first the queryError event is emitted, then the error
handlers are tapped in registration order, each receiving the error and
awaited before the next one starts; the original error is finally rethrown
(the rethrow is the error outcome of the surrounding chain). -/
def handleErrorTrace {ε : Type} (errCount : Nat) (e : ε) : List (QEvent ε) :=
  QEvent.queryErrorEv e :: (List.range errCount).map (fun i => QEvent.errHandlerEv i e)

/-- The declarative configuration of a query as execute sees it: the field
hash, the numbers of pre, error and post handlers (interceptors are opaque
side-effecting functions identified by their registration index), the
cancelled flag, and the handler's synchronous timeline, absent when no
handler was configured. -/
structure QueryDefn (ε δ : Type) where
  fields : FieldMap
  preCount : Nat
  errCount : Nat
  postCount : Nat
  cancelled : Bool
  script : Option (List (HEvent ε δ))

/-- One run of the execution chain built by execute: emit the execute event,
tap the pre handlers in order, invoke the handler through _invokeHandler with
errors diverted through _handleError, then store the result, tap the post
handlers and emit the result event.  Returns the emitted events in order and
the settled outcome of the chain (none when the reply never fires). -/
def runChain {ε δ : Type} (q : QueryDefn ε δ) (script : List (HEvent ε δ)) :
    List (QEvent ε) × Option (Except ε (QRA δ)) :=
  let inv := invokeHandler q.fields q.cancelled script
  let base := QEvent.executeEv :: ((List.range q.preCount).map QEvent.preEv) ++
    (if inv.1 then [QEvent.handlerInvokedEv] else [])
  match inv.2 with
  | none => (base, none)
  | some (.error e) => (base ++ handleErrorTrace q.errCount e, some (.error e))
  | some (.ok r) =>
    (base ++ ((List.range q.postCount).map QEvent.postEv) ++ [QEvent.resultEv],
      some (.ok r))

/-- The rejection value of the promise returned by execute: the literal
no-handler rejection, or an error propagated from the handler through
_handleError. -/
inductive ExecErr (ε : Type) where
  | noHandler
  | handlerErr (e : ε)

/-- Runtime parameters as a keyed hash. -/
def Params : Type := String → Option Nat

/-- lodash assign of incoming params over the current ones: the incoming
value wins per key (execute merges params before checking the memo). -/
def mergeParams (cur inc : Params) : Params :=
  fun k => (inc k).orElse (fun _ => cur k)

/-- The outcome of one execute call: none when the promise never settles,
otherwise its resolution or rejection. -/
def ExecOutcome (ε δ : Type) : Type := Option (Except (ExecErr ε) (QRA δ))

/-- The mutable state of a Query across execute calls: the merged params, the
memoized execution promise, how many times the execution chain (and with it
the handler) was started, and the accumulated event trace. -/
structure ExecState (ε δ : Type) where
  params : Params
  promise : Option (ExecOutcome ε δ)
  chainStarts : Nat
  trace : List (QEvent ε)

/-- A Query that has never been executed. -/
def freshExec {ε δ : Type} : ExecState ε δ :=
  { params := fun _ => none, promise := none, chainStarts := 0, trace := [] }

/-- One call to execute(params): params are merged first; then, when an
execution promise already exists, it is returned unchanged; when no handler
is configured a fresh no-handler rejection is returned without being
memoized; otherwise the chain runs once and its promise is memoized. -/
def executeStep {ε δ : Type} (q : QueryDefn ε δ) (st : ExecState ε δ)
    (p : Params) : ExecState ε δ × ExecOutcome ε δ :=
  let st0 := { st with params := mergeParams st.params p }
  match st0.promise with
  | some o => (st0, o)
  | none =>
    match q.script with
    | none => (st0, some (.error .noHandler))
    | some script =>
      let run := runChain q script
      let o : ExecOutcome ε δ := run.2.map (fun r => r.mapError ExecErr.handlerErr)
      ({ st0 with
          promise := some o
          chainStarts := st0.chainStarts + 1
          trace := st0.trace ++ run.1 }, o)

/-- A sequence of execute(params) calls on the same Query, returning the
final state and the outcome each call returned. -/
def executeMany {ε δ : Type} (q : QueryDefn ε δ) :
    ExecState ε δ → List Params → ExecState ε δ × List (ExecOutcome ε δ)
  | st, [] => (st, [])
  | st, p :: ps =>
    let r1 := executeStep q st p
    let r2 := executeMany q r1.1 ps
    (r2.1, r1.2 :: r2.2)

/-! ### QueryResult stream composition (the QueryResult module:
_initDatastream, stream, toArray, cancel) -/

/-- One item produced by a source or by the composed flow: a record or an
in-stream error. -/
inductive SItem (ε α : Type) where
  | record (a : α)
  | errS (e : ε)

/-- A lazy item sequence indexed by pull position; none means the sequence is
exhausted at that point. -/
def ItemFlow (ε α : Type) : Type := Nat → Option (SItem ε α)

/-- The flow of a finite item list. -/
def flowOfList {ε α : Type} (xs : List (SItem ε α)) : ItemFlow ε α :=
  fun i => xs[i]?

/-- The flow of a finite record list with no in-stream error. -/
def recordsFlowOf {ε α : Type} (xs : List α) : ItemFlow ε α :=
  flowOfList (xs.map SItem.record)

/-- The flow of an unbounded push generator producing one record per pull. -/
def genFlow {ε α : Type} (g : Nat → α) : ItemFlow ε α :=
  fun i => some (.record (g i))

/-- _initDatastream: the reply data defaults to an empty collection, and when
the query declares a non-negative limit the source is wrapped with a
take-first-limit stage, cutting the sequence off at the limit. -/
def initDatastream {ε α : Type} (limit : Int) (flow : ItemFlow ε α) : ItemFlow ε α :=
  if 0 ≤ limit then fun i => if (i : Int) < limit then flow i else none
  else flow

/-- The flow composition performed by stream(): the stage list starts with
the constant source stage and each through handler maps the previous stage's
flow, folded left to right. -/
def composeStages {ε α : Type} (stages : List (ItemFlow ε α → ItemFlow ε α))
    (src : ItemFlow ε α) : ItemFlow ε α :=
  stages.foldl (fun f stage => stage f) src

/-- Record-level application of user through stages, each transforming the
record sequence (and, in the historical defect class this module guards
against, dropping upstream error events at its adaptation boundary). -/
def applyRecStages {α : Type} (fs : List (List α → List α)) (rs : List α) :
    List α :=
  fs.foldl (fun xs f => f xs) rs

/-- An event observed on the composed output stream returned by stream():
a data record, an error event, the end event of the internal passthrough the
shim's listeners are subscribed to, and the end of the composed stream. -/
inductive REvent (ε α : Type) where
  | dataEv (a : α)
  | errorEv (e : ε)
  | ptEndEv
  | endEv

/-- True exactly for error events. -/
def isErrorREv {ε α : Type} : REvent ε α → Bool
  | .errorEv _ => true
  | _ => false

/-- True exactly for the passthrough end event. -/
def isPtEndEv {ε α : Type} : REvent ε α → Bool
  | .ptEndEv => true
  | _ => false

/-- True exactly for the composed stream's end event. -/
def isEndEv {ε α : Type} : REvent ε α → Bool
  | .endEv => true
  | _ => false

/-- Decrements the remaining-reads-until-cancel counter. -/
def decCancel : Option Nat → Option Nat
  | none => none
  | some k => some (k - 1)

/-- The read loop of the Readable wrapper built by stream().  Each read
first checks the result's cancelled flag (cancelAt counts the reads served
before cancellation lands): on cancellation the source is ended, which ends
the internal passthrough, and null is pushed to end the composed stream.
Otherwise one item is pulled from the composed flow: a record is pushed
downstream; an error item is re-emitted as an error event; on exhaustion the
captured source error, when one was recorded by the error listener stream()
attaches to the source, is emitted (err or sourceErr), and otherwise the
passthrough has drained and null ends the stream.  The fuel bounds how many
reads the consumer performs. -/
def readLoop {ε α : Type} (sourceErr : Option ε) :
    ItemFlow ε α → Option Nat → Nat → List (REvent ε α)
  | _, _, 0 => []
  | flow, cancelAt, fuel + 1 =>
    if cancelAt = some 0 then [.ptEndEv, .endEv]
    else
      match flow 0 with
      | some (.record a) =>
        .dataEv a :: readLoop sourceErr (fun j => flow (j + 1)) (decCancel cancelAt) fuel
      | some (.errS e) => [.ptEndEv, .errorEv e]
      | none =>
        match sourceErr with
        | some e => [.ptEndEv, .errorEv e]
        | none => [.ptEndEv, .endEv]

/-- toArray: subscribes to the composed stream, buffers every data record,
rejects with the first error event and resolves with the buffer on the end
event; none when the stream never terminates within the observed events. -/
def toArrayRun {ε α : Type} : List (REvent ε α) → List α → Option (Except ε (List α))
  | [], _ => none
  | .dataEv a :: rest, acc => toArrayRun rest (acc ++ [a])
  | .errorEv e :: _, _ => some (.error e)
  | .endEv :: _, acc => some (.ok acc)
  | .ptEndEv :: rest, acc => toArrayRun rest acc

/-- The cancellation flags shared by a Query and its QueryResult. -/
structure CancelModel where
  queryCancelled : Bool
  resultCancelled : Bool
  sourceDestroyed : Bool

/-- QueryResult.cancel: sets the result's cancelled flag and destroys the
source stream. -/
def queryResultCancel (s : CancelModel) : CancelModel :=
  { s with resultCancelled := true, sourceDestroyed := true }

/-- Query.cancel once a result exists: sets the query's cancelled flag,
emits the cancel event and delegates to QueryResult.cancel. -/
def queryCancelAfterResult (s : CancelModel) : CancelModel :=
  queryResultCancel { s with queryCancelled := true }

/-- Projection of the data the resolved QueryResult was built from, when the
handler invocation resolved at all. -/
def resultDataOf {ε δ : Type} : Bool × Option (Except ε (QRA δ)) → Option (Option δ)
  | (_, some (.ok r)) => some r.data
  | _ => none

/-! ### Helper lemmas -/

/-- After any call, the once-guarded reply is armed. -/
lemma replyOnce_onceFired {ε δ : Type} (f : FieldMap) (st : InvokeState ε δ)
    (a1 : JsVal ε δ) (a2 : Option δ) : (replyOnce f st a1 a2).onceFired = true := by
  by_cases h : st.onceFired = true
  · simp [replyOnce, h]
  · simp only [replyOnce, Bool.not_eq_true] at *
    simp only [h, Bool.false_eq_true, if_false]
    cases a1 with
    | error e => dsimp only; split <;> rfl
    | data d => rfl
    | nullish => rfl

/-- Once the reply has fired, any further reply calls leave the state
untouched. -/
lemma foldl_hstep_replyCalls {ε δ : Type} (f : FieldMap) :
    ∀ (l : List (HEvent ε δ)) (st : InvokeState ε δ), st.onceFired = true →
      (∀ ev ∈ l, isReplyCall ev = true) → l.foldl (hstep f) st = st := by
  intro l
  induction l with
  | nil => intro st _ _; rfl
  | cons ev rest ih =>
    intro st hfired hall
    have hev : isReplyCall ev = true := hall ev (List.mem_cons_self ev rest)
    cases ev with
    | replyCall a1 a2 =>
      have hstep1 : hstep f st (.replyCall a1 a2) = st := by
        simp [hstep, replyOnce, hfired]
      rw [List.foldl_cons, hstep1]
      exact ih st hfired (fun x hx => hall x (List.mem_cons_of_mem _ hx))
    | shimOp op => simp [isReplyCall] at hev
    | throwErr e => simp [isReplyCall] at hev
    | cancelCall => simp [isReplyCall] at hev

/-- Folding the shim operations of the handler's timeline mutates exactly the
QueryResult held by the cached shim. -/
lemma foldl_hstep_shimOps {ε δ : Type} (f : FieldMap) :
    ∀ (ops : List ShimOp) (st : InvokeState ε δ),
      (ops.map HEvent.shimOp).foldl (hstep f) st =
        { st with qr := st.qr.map (applyShimOps ops) } := by
  intro ops
  induction ops with
  | nil =>
    intro st
    simp only [List.map_nil, List.foldl_nil]
    rw [show st.qr.map (applyShimOps []) = st.qr from by cases st.qr <;> rfl]
  | cons op rest ih =>
    intro st
    simp only [List.map_cons, List.foldl_cons]
    rw [show hstep f st (.shimOp op) = { st with qr := st.qr.map (applyShimOp op) } from rfl]
    rw [ih]
    simp only [Option.map_map]
    rw [show Option.map (applyShimOps rest ∘ applyShimOp op) st.qr =
      Option.map (applyShimOps (op :: rest)) st.qr from by cases st.qr <;> rfl]

/-! ### Claim theorems -/

/-- Claim C1: for every handler that calls the reply callback more than once
during a single execution, only the first call has any observable effect: the
first call's error-or-data argument alone determines whether the execution
rejects or which data the QueryResult is built from, and every subsequent
reply call is silently ignored. -/
theorem claim1_single_fire_reply {ε δ : Type} (f : FieldMap) (a1 : JsVal ε δ)
    (a2 : Option δ) (rest : List (HEvent ε δ))
    (hrest : ∀ ev ∈ rest, isReplyCall ev = true) :
    invokeHandler f false (.replyCall a1 a2 :: rest) =
      invokeHandler f false [.replyCall a1 a2]
    ∧ (∀ e, a1 = JsVal.error e →
        invokeHandler f false (.replyCall a1 a2 :: rest) = (true, some (.error e)))
    ∧ (isErrorVal a1 = false →
        invokeHandler f false (.replyCall a1 a2 :: rest) =
          (true, some (.ok (mkQRA f false (replyData a1 a2))))) := by
  have habs : (HEvent.replyCall a1 a2 :: rest).foldl (hstep f) invokeInit =
      replyOnce f invokeInit a1 a2 := by
    rw [List.foldl_cons]
    rw [show hstep f invokeInit (.replyCall a1 a2) = replyOnce f invokeInit a1 a2 from rfl]
    exact foldl_hstep_replyCalls f rest _ (replyOnce_onceFired f invokeInit a1 a2) hrest
  have heq : invokeHandler f false (.replyCall a1 a2 :: rest) =
      invokeHandler f false [.replyCall a1 a2] := by
    simp only [invokeHandler, Bool.false_eq_true, if_false]
    rw [habs, List.foldl_cons, List.foldl_nil]
    rfl
  refine ⟨heq, ?_, ?_⟩
  · intro e he
    subst he
    rw [heq]
    rfl
  · intro h
    rw [heq]
    cases a1 with
    | error e => simp [isErrorVal] at h
    | data d => rfl
    | nullish => rfl

/-- Witness for claim C1 at a concrete double reply: the second reply call is
ignored and the first call's data builds the result. -/
theorem claim1_witness :
    (∀ ev ∈ ([.replyCall (.data 2) none] : List (HEvent Nat Nat)), isReplyCall ev = true)
    ∧ invokeHandler emptyFieldMap false
        ([.replyCall (.data 1) none, .replyCall (.data 2) none] : List (HEvent Nat Nat)) =
        invokeHandler emptyFieldMap false [.replyCall (.data 1) none] :=
  ⟨by decide, (claim1_single_fire_reply emptyFieldMap (.data 1) none
    [.replyCall (.data 2) none] (by decide)).1⟩

/-- Claim C3: when the handler replies with data (either as the single
argument or after a nullish error argument), the QueryResult is built at
reply time but resolution is deferred to the next tick, so all shim
configuration the handler performs synchronously after the reply call is
visible in the value the execution promise settles with. -/
theorem claim3_post_reply_configuration {ε δ : Type} (f : FieldMap) (d : δ)
    (ops : List ShimOp) :
    invokeHandler f false
        ((.replyCall .nullish (some d) :: ops.map .shimOp) : List (HEvent ε δ)) =
      (true, some (.ok (applyShimOps ops (mkQRA f false (some d)))))
    ∧ invokeHandler f false
        ((.replyCall (.data d) none :: ops.map .shimOp) : List (HEvent ε δ)) =
      (true, some (.ok (applyShimOps ops (mkQRA f false (some d))))) := by
  constructor
  · simp only [invokeHandler, Bool.false_eq_true, if_false, List.foldl_cons]
    rw [show hstep f invokeInit (.replyCall .nullish (some d)) =
      ({ cancelled := false, onceFired := true, qr := some (mkQRA f false (some d)),
         rejected := none, resolveScheduled := true } : InvokeState ε δ) from rfl]
    rw [foldl_hstep_shimOps]
    rfl
  · simp only [invokeHandler, Bool.false_eq_true, if_false, List.foldl_cons]
    rw [show hstep f invokeInit (.replyCall (.data d) none) =
      ({ cancelled := false, onceFired := true, qr := some (mkQRA f false (some d)),
         rejected := none, resolveScheduled := true } : InvokeState ε δ) from rfl]
    rw [foldl_hstep_shimOps]
    rfl

/-- Counterexample to claim C4: with the cancel event arriving after the
handler was invoked but before it replied, the execution resolves to a
QueryResult built from no data at all; the handler's own reply carrying the
datum 1 is ignored, so the handler's reply is not what supplies the result
data. -/
theorem claim4_counterexample :
    resultDataOf (invokeHandler emptyFieldMap false
      ([.cancelCall, .replyCall (.data 1) none] : List (HEvent Nat Nat))) = some none
    ∧ resultDataOf (invokeHandler emptyFieldMap false
      ([.cancelCall, .replyCall (.data 1) none] : List (HEvent Nat Nat))) ≠ some (some 1) := by
  decide

/-- Claim C4, amended: when cancel() is called after the handler has been
invoked but before it has replied, the cancel event itself fires the
single-fire reply with no arguments, so the execution resolves to an empty
QueryResult that is already in the cancelled state; the handler's eventual
reply calls are silently ignored because the single-fire reply has been
consumed. -/
theorem claim4_amended_cancel_in_flight {ε δ : Type} (f : FieldMap)
    (rest : List (HEvent ε δ)) (hrest : ∀ ev ∈ rest, isReplyCall ev = true) :
    invokeHandler f false (.cancelCall :: rest) = (true, some (.ok (mkQRA f true none))) := by
  simp only [invokeHandler, Bool.false_eq_true, if_false, List.foldl_cons]
  rw [show hstep f invokeInit .cancelCall =
    ({ cancelled := true, onceFired := true, qr := some (mkQRA f true none),
       rejected := none, resolveScheduled := true } : InvokeState ε δ) from rfl]
  rw [foldl_hstep_replyCalls f rest _ rfl hrest]
  rfl

/-- Witness for amended claim C4: concrete in-flight cancellation followed by
a late reply resolves to the empty cancelled result. -/
theorem claim4_amended_witness :
    (∀ ev ∈ ([.replyCall (.data 1) none] : List (HEvent Nat Nat)), isReplyCall ev = true)
    ∧ invokeHandler emptyFieldMap false
        ([.cancelCall, .replyCall (.data 1) none] : List (HEvent Nat Nat)) =
        (true, some (.ok (mkQRA emptyFieldMap true none))) :=
  ⟨by decide, claim4_amended_cancel_in_flight emptyFieldMap
    [.replyCall (.data 1) none] (by decide)⟩

/-- Counting a predicate that is false on every mapped element gives zero. -/
lemma countP_map_false {β γ : Type} (p : γ → Bool) (h : β → γ) (l : List β)
    (hp : ∀ b, p (h b) = false) : (l.map h).countP p = 0 := by
  induction l with
  | nil => rfl
  | cons b l ih => simp [List.countP_cons, hp, ih]

/-- The handler invocation event occurs at most once in the trace of one
execution chain run. -/
lemma countP_handlerInvoked_runChain {ε δ : Type} (q : QueryDefn ε δ)
    (script : List (HEvent ε δ)) :
    ((runChain q script).1).countP isHandlerInvokedEv ≤ 1 := by
  rcases h : invokeHandler q.fields q.cancelled script with ⟨b, o⟩
  have hpre : ((List.range q.preCount).map (QEvent.preEv (ε := ε))).countP isHandlerInvokedEv = 0 :=
    countP_map_false _ _ _ (fun _ => rfl)
  have hpost : ((List.range q.postCount).map (QEvent.postEv (ε := ε))).countP isHandlerInvokedEv = 0 :=
    countP_map_false _ _ _ (fun _ => rfl)
  simp only [runChain, h]
  cases o with
  | none =>
    cases b <;>
      simp [List.countP_cons, List.countP_append, List.countP_nil, hpre, isHandlerInvokedEv]
  | some r =>
    cases r with
    | error e =>
      have herr : ((List.range q.errCount).map (fun i => QEvent.errHandlerEv i e)).countP
          isHandlerInvokedEv = 0 := countP_map_false _ _ _ (fun _ => rfl)
      cases b <;>
        simp [List.countP_cons, List.countP_append, List.countP_nil, hpre, herr,
          handleErrorTrace, isHandlerInvokedEv]
    | ok r =>
      cases b <;>
        simp [List.countP_cons, List.countP_append, List.countP_nil, hpre, hpost,
          isHandlerInvokedEv]

/-- Once the execution promise is memoized, further execute calls return it
and leave everything but the params untouched. -/
lemma executeMany_memo {ε δ : Type} (q : QueryDefn ε δ) :
    ∀ (ps : List Params) (st : ExecState ε δ) (o : ExecOutcome ε δ),
      st.promise = some o →
      (executeMany q st ps).2 = List.replicate ps.length o
      ∧ (executeMany q st ps).1.promise = some o
      ∧ (executeMany q st ps).1.chainStarts = st.chainStarts
      ∧ (executeMany q st ps).1.trace = st.trace := by
  intro ps
  induction ps with
  | nil => intro st o h; exact ⟨rfl, h, rfl, rfl⟩
  | cons p ps ih =>
    intro st o h
    have hstep1 : executeStep q st p = ({ st with params := mergeParams st.params p }, o) := by
      simp [executeStep, h]
    have hst : ({ st with params := mergeParams st.params p } : ExecState ε δ).promise = some o := h
    have := ih { st with params := mergeParams st.params p } o hst
    simp only [executeMany, hstep1]
    exact ⟨by rw [this.1]; simp [List.replicate_succ], this.2.1, this.2.2.1, this.2.2.2⟩

/-- With no configured handler, every execute call returns a fresh no-handler
rejection, nothing is memoized and no chain ever starts. -/
lemma executeMany_noHandler {ε δ : Type} (q : QueryDefn ε δ) (hq : q.script = none) :
    ∀ (ps : List Params) (st : ExecState ε δ), st.promise = none →
      (executeMany q st ps).2 =
        List.replicate ps.length (some (Except.error ExecErr.noHandler))
      ∧ (executeMany q st ps).1.promise = none
      ∧ (executeMany q st ps).1.chainStarts = st.chainStarts
      ∧ (executeMany q st ps).1.trace = st.trace := by
  intro ps
  induction ps with
  | nil => intro st h; exact ⟨rfl, h, rfl, rfl⟩
  | cons p ps ih =>
    intro st h
    have hstep1 : executeStep q st p =
        ({ st with params := mergeParams st.params p },
          some (Except.error ExecErr.noHandler)) := by
      simp [executeStep, h, hq]
    have hst : ({ st with params := mergeParams st.params p } : ExecState ε δ).promise = none := h
    have := ih { st with params := mergeParams st.params p } hst
    simp only [executeMany, hstep1]
    exact ⟨by rw [this.1]; simp [List.replicate_succ], this.2.1, this.2.2.1, this.2.2.2⟩

/-- Claim C2: for every Query the handler is started at most once however
many times execute is called: the first call's outcome is memoized and every
later call returns that same outcome, and the handler invocation event
appears at most once in the whole trace. -/
theorem claim2_execute_idempotent {ε δ : Type} (q : QueryDefn ε δ)
    (p0 : Params) (ps : List Params) :
    (executeMany q freshExec (p0 :: ps)).2 =
      List.replicate (ps.length + 1) (executeStep q freshExec p0).2
    ∧ (executeMany q freshExec (p0 :: ps)).1.chainStarts ≤ 1
    ∧ ((executeMany q freshExec (p0 :: ps)).1.trace).countP isHandlerInvokedEv ≤ 1 := by
  have hm : executeMany q freshExec (p0 :: ps) =
      ((executeMany q (executeStep q freshExec p0).1 ps).1,
        (executeStep q freshExec p0).2 ::
          (executeMany q (executeStep q freshExec p0).1 ps).2) := rfl
  rcases hscript : q.script with _ | script
  · have h1 : (executeStep q (freshExec : ExecState ε δ) p0).1.promise = none ∧
        (executeStep q freshExec p0).2 = some (.error .noHandler) ∧
        (executeStep q freshExec p0).1.chainStarts = 0 ∧
        (executeStep q freshExec p0).1.trace = [] := by
      refine ⟨?_, ?_, ?_, ?_⟩ <;> simp [executeStep, freshExec, hscript]
    have hrest := executeMany_noHandler q hscript ps (executeStep q freshExec p0).1 h1.1
    rw [hm]
    refine ⟨?_, ?_, ?_⟩
    · rw [hrest.1, h1.2.1]; simp [List.replicate_succ]
    · rw [hrest.2.2.1, h1.2.2.1]; exact Nat.zero_le 1
    · rw [hrest.2.2.2, h1.2.2.2]; exact Nat.zero_le 1
  · have h1 : (executeStep q (freshExec : ExecState ε δ) p0).1.promise =
        some (executeStep q freshExec p0).2 ∧
        (executeStep q freshExec p0).1.chainStarts = 1 ∧
        (executeStep q freshExec p0).1.trace = (runChain q script).1 := by
      refine ⟨?_, ?_, ?_⟩ <;> simp [executeStep, freshExec, hscript]
    have hrest := executeMany_memo q ps (executeStep q freshExec p0).1 _ h1.1
    rw [hm]
    refine ⟨?_, ?_, ?_⟩
    · rw [hrest.1]; simp [List.replicate_succ]
    · rw [hrest.2.2.1, h1.2.1]
    · rw [hrest.2.2.2, h1.2.2]
      exact countP_handlerInvoked_runChain q script

/-- Claim C8: for every handler error, whether thrown synchronously or passed
as an Error instance to reply, execute rejects with that same error, after
emitting the queryError event carrying it and then invoking every registered
error handler exactly once, in registration order, with that error. -/
theorem claim8_error_handler_chain {ε δ : Type} (f : FieldMap)
    (pre errc postc : Nat) (e : ε) (p : Params) :
    (executeStep (QueryDefn.mk f pre errc postc false
        (some ([.throwErr e] : List (HEvent ε δ)))) freshExec p).2 =
      some (.error (.handlerErr e))
    ∧ (executeStep (QueryDefn.mk f pre errc postc false
        (some ([.throwErr e] : List (HEvent ε δ)))) freshExec p).1.trace =
      QEvent.executeEv :: ((List.range pre).map QEvent.preEv) ++
        [QEvent.handlerInvokedEv] ++ handleErrorTrace errc e
    ∧ (executeStep (QueryDefn.mk f pre errc postc false
        (some ([.replyCall (.error e) none] : List (HEvent ε δ)))) freshExec p).2 =
      some (.error (.handlerErr e))
    ∧ (executeStep (QueryDefn.mk f pre errc postc false
        (some ([.replyCall (.error e) none] : List (HEvent ε δ)))) freshExec p).1.trace =
      QEvent.executeEv :: ((List.range pre).map QEvent.preEv) ++
        [QEvent.handlerInvokedEv] ++ handleErrorTrace errc e := by
  have hthrow : invokeHandler f false ([.throwErr e] : List (HEvent ε δ)) =
      (true, some (.error e)) := rfl
  have hreply : invokeHandler f false ([.replyCall (.error e) none] : List (HEvent ε δ)) =
      (true, some (.error e)) := rfl
  refine ⟨?_, ?_, ?_, ?_⟩ <;>
    simp [executeStep, freshExec, runChain, hthrow, hreply, Except.mapError]

/-- Shifting the flow of a cons list drops its head. -/
lemma flowOfList_shift {ε α : Type} (x : SItem ε α) (l : List (SItem ε α)) :
    (fun j => flowOfList (x :: l) (j + 1)) = flowOfList l := by
  funext j
  simp [flowOfList]

/-- The read loop first delivers every record of the flow's record prefix,
then continues on the remaining items, when no cancellation occurs. -/
lemma readLoop_records {ε α : Type} (se : Option ε) :
    ∀ (xs : List α) (rest : List (SItem ε α)) (fuel : Nat),
      readLoop se (flowOfList (xs.map SItem.record ++ rest)) none (xs.length + fuel) =
        xs.map REvent.dataEv ++ readLoop se (flowOfList rest) none fuel := by
  intro xs
  induction xs with
  | nil =>
    intro rest fuel
    simp
  | cons x xs ih =>
    intro rest fuel
    rw [show (x :: xs).length + fuel = (xs.length + fuel) + 1 from by
      simp only [List.length_cons]; omega]
    rw [show ((x :: xs).map SItem.record ++ rest) =
      SItem.record x :: (xs.map SItem.record ++ rest) from by simp]
    rw [show readLoop se (flowOfList (SItem.record x :: (xs.map SItem.record ++ rest)))
        none ((xs.length + fuel) + 1) =
      REvent.dataEv x :: readLoop se
        (fun j => flowOfList (SItem.record x :: (xs.map SItem.record ++ rest)) (j + 1))
        (decCancel none) (xs.length + fuel) from by simp [readLoop, flowOfList]]
    rw [flowOfList_shift]
    rw [show decCancel none = none from rfl]
    rw [ih rest fuel]
    simp

/-- The read loop over an unbounded generator with cancellation landing after
k served reads: k records are delivered, then the source is ended (ending the
passthrough) and the stream ends cleanly. -/
lemma readLoop_gen_cancel {ε α : Type} :
    ∀ (k : Nat) (g : Nat → α) (fuel : Nat),
      readLoop (none : Option ε) (genFlow g) (some k) (k + (fuel + 1)) =
        ((List.range k).map (fun i => REvent.dataEv (g i))) ++ [.ptEndEv, .endEv] := by
  intro k
  induction k with
  | zero =>
    intro g fuel
    simp [readLoop]
  | succ k ih =>
    intro g fuel
    rw [show (k + 1) + (fuel + 1) = (k + (fuel + 1)) + 1 from by omega]
    rw [show readLoop (none : Option ε) (genFlow g) (some (k + 1)) ((k + (fuel + 1)) + 1) =
      REvent.dataEv (g 0) :: readLoop (none : Option ε)
        (fun j => genFlow g (j + 1)) (decCancel (some (k + 1))) (k + (fuel + 1)) from by
      simp [readLoop, genFlow]]
    rw [show decCancel (some (k + 1)) = some k from by simp [decCancel]]
    rw [show (fun j => genFlow (ε := ε) g (j + 1)) = genFlow (fun j => g (j + 1)) from rfl]
    rw [ih (fun j => g (j + 1)) fuel]
    simp [List.range_succ_eq_map, List.map_map, Function.comp]

/-- Buffering a stream that starts with data events accumulates them. -/
lemma toArrayRun_data_prefix {ε α : Type} :
    ∀ (xs : List α) (rest : List (REvent ε α)) (acc : List α),
      toArrayRun (xs.map REvent.dataEv ++ rest) acc = toArrayRun rest (acc ++ xs) := by
  intro xs
  induction xs with
  | nil => intro rest acc; simp
  | cons x xs ih =>
    intro rest acc
    simp only [List.map_cons, List.cons_append]
    rw [show toArrayRun (REvent.dataEv x :: (List.map REvent.dataEv xs ++ rest)) acc =
      toArrayRun (List.map REvent.dataEv xs ++ rest) (acc ++ [x]) from rfl]
    rw [ih rest (acc ++ [x])]
    simp

/-- Under a non-negative limit the take stage cuts an unbounded generator
down to its first limit records. -/
lemma initDatastream_gen {ε α : Type} (N : Nat) (g : Nat → α) :
    initDatastream (N : Int) (genFlow g) = (recordsFlowOf ((List.range N).map g) : ItemFlow ε α) := by
  funext i
  simp only [initDatastream, Int.natCast_nonneg, if_true, genFlow, recordsFlowOf, flowOfList,
    List.getElem?_map, List.getElem?_range]
  by_cases h : i < N
  · simp [h, show (i : Int) < (N : Int) from by exact_mod_cast h]
  · have h2 : ¬((i : Int) < (N : Int)) := by exact_mod_cast h
    have h3 : (List.range N)[i]? = none :=
      List.getElem?_eq_none (by simpa using Nat.le_of_not_lt h)
    simp [h, h2, h3]

/-- Under a non-negative limit the take stage cuts a finite record list down
to its first limit records. -/
lemma initDatastream_list {ε α : Type} (N : Nat) (xs : List α) :
    initDatastream (N : Int) (recordsFlowOf xs) = (recordsFlowOf (xs.take N) : ItemFlow ε α) := by
  funext i
  simp only [initDatastream, Int.natCast_nonneg, if_true, recordsFlowOf, flowOfList,
    List.getElem?_map]
  by_cases h : i < N
  · have : (xs.take N)[i]? = xs[i]? := List.getElem?_take_of_lt h
    simp [this, show (i : Int) < (N : Int) from by exact_mod_cast h]
  · have h2 : ¬((i : Int) < (N : Int)) := by exact_mod_cast h
    have hlen : (xs.take N).length ≤ i := by
      have := List.length_take_le N xs
      omega
    simp [h2, List.getElem?_eq_none hlen]

/-- Claim C5: with a non-negative limit N the take-first-N stage is applied
to the source before any user through stage (the composed pipeline starts
from the truncated source, for every through-stage list), and with no user
stages the stream of an unbounded generator delivers exactly N records and
exactly one end event, toArray resolving to those N records; a finite record
source is likewise truncated to its first N records. -/
theorem claim5_limit_before_throughs {ε α : Type} (g : Nat → α) (N : Nat)
    (ts : List (ItemFlow ε α → ItemFlow ε α)) (xs : List α) (fuel fuel2 : Nat) :
    composeStages ts (initDatastream (N : Int) (genFlow g)) =
      composeStages ts (recordsFlowOf ((List.range N).map g))
    ∧ readLoop (none : Option ε) (initDatastream (N : Int) (genFlow g)) none
        (N + (fuel + 1)) =
        (((List.range N).map g).map REvent.dataEv) ++ [.ptEndEv, .endEv]
    ∧ toArrayRun (readLoop (none : Option ε) (initDatastream (N : Int) (genFlow g)) none
        (N + (fuel + 1))) [] = some (.ok ((List.range N).map g))
    ∧ ((List.range N).map g).length = N
    ∧ (readLoop (none : Option ε) (initDatastream (N : Int) (genFlow g)) none
        (N + (fuel + 1))).countP isEndEv = 1
    ∧ readLoop (none : Option ε) (initDatastream (N : Int) (recordsFlowOf xs)) none
        ((xs.take N).length + (fuel2 + 1)) =
        ((xs.take N).map REvent.dataEv) ++ [.ptEndEv, .endEv] := by
  have hflow : (recordsFlowOf ((List.range N).map g) : ItemFlow ε α) =
      flowOfList (((List.range N).map g).map SItem.record ++ []) := by
    simp [recordsFlowOf]
  have hterm : readLoop (none : Option ε) (flowOfList ([] : List (SItem ε α))) none
      (fuel + 1) = [.ptEndEv, .endEv] := by
    simp [readLoop, flowOfList]
  have htr : readLoop (none : Option ε) (initDatastream (N : Int) (genFlow g)) none
      (N + (fuel + 1)) =
      (((List.range N).map g).map REvent.dataEv) ++ [.ptEndEv, .endEv] := by
    rw [initDatastream_gen, hflow]
    rw [show N + (fuel + 1) = ((List.range N).map g).length + (fuel + 1) from by simp]
    rw [readLoop_records, hterm]
  refine ⟨?_, htr, ?_, by simp, ?_, ?_⟩
  · rw [initDatastream_gen]
  · rw [htr, toArrayRun_data_prefix]
    simp [toArrayRun]
  · rw [htr]
    have h0 : (((List.range N).map g).map REvent.dataEv).countP (isEndEv (ε := ε)) = 0 :=
      countP_map_false _ _ _ (fun _ => rfl)
    simp [List.countP_append, List.countP_cons, h0, isEndEv]
  · have hflow2 : (recordsFlowOf (xs.take N) : ItemFlow ε α) =
        flowOfList ((xs.take N).map SItem.record ++ []) := by
      simp [recordsFlowOf]
    have hterm2 : readLoop (none : Option ε) (flowOfList ([] : List (SItem ε α))) none
        (fuel2 + 1) = [.ptEndEv, .endEv] := by
      simp [readLoop, flowOfList]
    rw [initDatastream_list, hflow2, readLoop_records, hterm2]

/-- Claim C6: a source that emits records and then raises an error delivers
that error to the composed stream's consumer exactly once with its identity
preserved, and toArray rejects with that same error: both when no user stage
intervenes (the error item reaches the wrapper directly) and when user
through stages transform the records and drop the error at their adaptation
boundary, in which case the source-error listener attached by stream()
re-emits the captured error at the end of the composed flow. -/
theorem claim6_error_transparency {ε α : Type} (rs : List α) (e : ε)
    (fs : List (List α → List α)) (fuel fuel2 : Nat) :
    readLoop (none : Option ε) (flowOfList (rs.map SItem.record ++ [SItem.errS e])) none
        (rs.length + (fuel + 1)) =
      rs.map REvent.dataEv ++ [.ptEndEv, .errorEv e]
    ∧ (readLoop (none : Option ε) (flowOfList (rs.map SItem.record ++ [SItem.errS e])) none
        (rs.length + (fuel + 1))).countP isErrorREv = 1
    ∧ toArrayRun (readLoop (none : Option ε)
        (flowOfList (rs.map SItem.record ++ [SItem.errS e])) none
        (rs.length + (fuel + 1))) [] = some (.error e)
    ∧ readLoop (some e) (recordsFlowOf (applyRecStages fs rs)) none
        ((applyRecStages fs rs).length + (fuel2 + 1)) =
      (applyRecStages fs rs).map REvent.dataEv ++ [.ptEndEv, .errorEv e]
    ∧ (readLoop (some e) (recordsFlowOf (applyRecStages fs rs)) none
        ((applyRecStages fs rs).length + (fuel2 + 1))).countP isErrorREv = 1
    ∧ toArrayRun (readLoop (some e) (recordsFlowOf (applyRecStages fs rs)) none
        ((applyRecStages fs rs).length + (fuel2 + 1))) [] = some (.error e) := by
  have hterm : readLoop (none : Option ε) (flowOfList [SItem.errS (α := α) e]) none
      (fuel + 1) = [.ptEndEv, .errorEv e] := by
    simp [readLoop, flowOfList]
  have htr : readLoop (none : Option ε) (flowOfList (rs.map SItem.record ++ [SItem.errS e]))
      none (rs.length + (fuel + 1)) = rs.map REvent.dataEv ++ [.ptEndEv, .errorEv e] := by
    rw [readLoop_records, hterm]
  have hflow2 : (recordsFlowOf (applyRecStages fs rs) : ItemFlow ε α) =
      flowOfList ((applyRecStages fs rs).map SItem.record ++ []) := by
    simp [recordsFlowOf]
  have hterm2 : readLoop (some e) (flowOfList ([] : List (SItem ε α))) none
      (fuel2 + 1) = [.ptEndEv, .errorEv e] := by
    simp [readLoop, flowOfList]
  have htr2 : readLoop (some e) (recordsFlowOf (applyRecStages fs rs)) none
      ((applyRecStages fs rs).length + (fuel2 + 1)) =
      (applyRecStages fs rs).map REvent.dataEv ++ [.ptEndEv, .errorEv e] := by
    rw [hflow2, readLoop_records, hterm2]
  have h0 : (rs.map REvent.dataEv).countP (isErrorREv (ε := ε)) = 0 :=
    countP_map_false _ _ _ (fun _ => rfl)
  have h02 : ((applyRecStages fs rs).map REvent.dataEv).countP (isErrorREv (ε := ε)) = 0 :=
    countP_map_false _ _ _ (fun _ => rfl)
  refine ⟨htr, ?_, ?_, htr2, ?_, ?_⟩
  · rw [htr]; simp [List.countP_append, List.countP_cons, h0, isErrorREv]
  · rw [htr, toArrayRun_data_prefix]; simp [toArrayRun]
  · rw [htr2]; simp [List.countP_append, List.countP_cons, h02, isErrorREv]
  · rw [htr2, toArrayRun_data_prefix]; simp [toArrayRun]

/-- Claim C7: cancellation never surfaces as an error: both cancel entry
points leave the result cancelled, and a stream cancelled after k reads of an
unbounded generator delivers the k buffered records, no error event, exactly
one end event on the internal passthrough (so an end listener registered via
the reply shim fires exactly once) and exactly one end event to the
consumer, with toArray resolving to the buffered records. -/
theorem claim7_cancellation_not_error {ε α : Type} (s : CancelModel) (g : Nat → α)
    (k fuel : Nat) :
    (queryResultCancel s).resultCancelled = true
    ∧ (queryCancelAfterResult s).resultCancelled = true
    ∧ readLoop (none : Option ε) (genFlow g) (some k) (k + (fuel + 1)) =
        (((List.range k).map g).map REvent.dataEv) ++ [.ptEndEv, .endEv]
    ∧ (readLoop (none : Option ε) (genFlow g) (some k) (k + (fuel + 1))).countP
        isErrorREv = 0
    ∧ (readLoop (none : Option ε) (genFlow g) (some k) (k + (fuel + 1))).countP
        isPtEndEv = 1
    ∧ (readLoop (none : Option ε) (genFlow g) (some k) (k + (fuel + 1))).countP
        isEndEv = 1
    ∧ toArrayRun (readLoop (none : Option ε) (genFlow g) (some k) (k + (fuel + 1))) [] =
        some (.ok ((List.range k).map g)) := by
  have hmap : ((List.range k).map (fun i => REvent.dataEv (ε := ε) (g i))) =
      ((List.range k).map g).map REvent.dataEv := by
    simp [List.map_map, Function.comp]
  have htr : readLoop (none : Option ε) (genFlow g) (some k) (k + (fuel + 1)) =
      (((List.range k).map g).map REvent.dataEv) ++ [.ptEndEv, .endEv] := by
    rw [readLoop_gen_cancel, hmap]
  have h0e : (((List.range k).map g).map REvent.dataEv).countP (isErrorREv (ε := ε)) = 0 :=
    countP_map_false _ _ _ (fun _ => rfl)
  have h0p : (((List.range k).map g).map REvent.dataEv).countP (isPtEndEv (ε := ε)) = 0 :=
    countP_map_false _ _ _ (fun _ => rfl)
  have h0n : (((List.range k).map g).map REvent.dataEv).countP (isEndEv (ε := ε)) = 0 :=
    countP_map_false _ _ _ (fun _ => rfl)
  refine ⟨rfl, rfl, htr, ?_, ?_, ?_, ?_⟩
  · rw [htr]; simp [List.countP_append, List.countP_cons, h0e, isErrorREv]
  · rw [htr]; simp [List.countP_append, List.countP_cons, h0p, isPtEndEv]
  · rw [htr]; simp [List.countP_append, List.countP_cons, h0n, isEndEv]
  · rw [htr, toArrayRun_data_prefix]; simp [toArrayRun]

/-- Unfolding one step of the shim.fields merge loop. -/
lemma shimFieldsMerge_cons (m : FieldMap) (kv : String × Entry)
    (kvs : List (String × Entry)) :
    shimFieldsMerge m (kv :: kvs) =
      shimFieldsMerge (updateField m kv.1 (mergeEntry (m kv.1) kv.2)) kvs := rfl

/-- Every key of the pair list built from a name array is one of the names. -/
lemma shimFieldsPairs_key_mem :
    ∀ (names : List String) (i : Nat) (kv : String × Entry),
      kv ∈ shimFieldsPairs names i → kv.1 ∈ names := by
  intro names
  induction names with
  | nil => intro i kv h; simp [shimFieldsPairs] at h
  | cons n rest ih =>
    intro i kv h
    simp only [shimFieldsPairs, List.mem_cons] at h
    cases h with
    | inl h => subst h; exact List.mem_cons_self n rest
    | inr h => exact List.mem_cons_of_mem n (ih (i + 1) kv h)

/-- Merging pairs whose keys all differ from k leaves the hash unchanged at
k. -/
lemma shimFieldsMerge_notMem :
    ∀ (kvs : List (String × Entry)) (m : FieldMap) (k : String),
      (∀ kv ∈ kvs, kv.1 ≠ k) → shimFieldsMerge m kvs k = m k := by
  intro kvs
  induction kvs with
  | nil => intro m k _; rfl
  | cons kv kvs ih =>
    intro m k h
    rw [shimFieldsMerge_cons]
    rw [ih _ k (fun x hx => h x (List.mem_cons_of_mem kv hx))]
    have hne : kv.1 ≠ k := h kv (List.mem_cons_self kv kvs)
    simp [updateField, Ne.symm hne]

/-- The entry produced at a name occurring once in the array: the existing
entry defaults-merged with the position entry of the name's index. -/
lemma shimFieldsMerge_pairs_found :
    ∀ (pre : List String) (post : List String) (n : String) (i : Nat) (m : FieldMap),
      n ∉ pre → n ∉ post →
      shimFieldsMerge m (shimFieldsPairs (pre ++ n :: post) i) n =
        some (mergeEntry (m n) (posEntry (i + pre.length))) := by
  intro pre
  induction pre with
  | nil =>
    intro post n i m _ hpost
    simp only [List.nil_append, shimFieldsPairs, shimFieldsMerge_cons]
    rw [shimFieldsMerge_notMem _ _ n (fun kv hkv => by
      intro heq
      exact hpost (heq ▸ shimFieldsPairs_key_mem post (i + 1) kv hkv))]
    simp [updateField]
  | cons p pre ih =>
    intro post n i m hpre hpost
    have hnp : n ≠ p := fun h => hpre (h ▸ List.mem_cons_self p pre)
    have hnpre : n ∉ pre := fun h => hpre (List.mem_cons_of_mem p h)
    simp only [List.cons_append, shimFieldsPairs, shimFieldsMerge_cons, List.append_eq]
    rw [ih post n (i + 1) _ hnpre hpost]
    have hm : updateField m p (mergeEntry (m p) (posEntry i)) n = m n := by
      simp [updateField, hnp]
    rw [hm]
    rw [show i + 1 + pre.length = i + (p :: pre).length from by
      simp only [List.length_cons]; omega]

/-- Counterexample to claim C9: with a pre-existing position 7 on field a,
calling the shim's fields with the bare array holding a does not apply the
newly assigned position 0 — the existing entry key wins, so the new key does
not win as claimed. -/
theorem claim9_counterexample :
    shimFieldsArray ["a"] (updateField emptyFieldMap "a" (Entry.mk none (some 7) none)) "a" =
      some (Entry.mk none (some 7) none)
    ∧ shimFieldsArray ["a"] (updateField emptyFieldMap "a" (Entry.mk none (some 7) none)) "a" ≠
      some (Entry.mk none (some 0) none) := by
  decide

/-- Claim C9, amended: the shim's fields applied to a bare array assigns the
i-th name position i and defaults-merges each produced entry into the field
hash with the existing entry winning per key: keys absent from the existing
entry (such as the new position when none was set) are filled from the new
entry, existing keys (a pre-existing label, or a pre-existing position)
persist, names not in the array are untouched, and fieldDefaults applied
afterwards fills only field names still absent from the hash. -/
theorem claim9_amended_fields_merge (pre post : List String) (n k2 : String)
    (m d : FieldMap) (h1 : n ∉ pre) (h2 : n ∉ post) (hk : k2 ∉ pre ++ n :: post)
    (hmk : m k2 = none) :
    shimFieldsArray (pre ++ n :: post) m n = some (mergeEntry (m n) (posEntry pre.length))
    ∧ shimFieldsArray (pre ++ n :: post) m k2 = m k2
    ∧ fieldDefaultsMap (shimFieldsArray (pre ++ n :: post) m) d n =
        some (mergeEntry (m n) (posEntry pre.length))
    ∧ fieldDefaultsMap (shimFieldsArray (pre ++ n :: post) m) d k2 = d k2
    ∧ mergeEntry (some (Entry.mk (some "L") none none)) (posEntry 0) =
        Entry.mk (some "L") (some 0) none
    ∧ (mergeEntry (some (Entry.mk none (some 7) none)) (posEntry 0)).position = some 7 := by
  have c1 : shimFieldsArray (pre ++ n :: post) m n =
      some (mergeEntry (m n) (posEntry pre.length)) := by
    rw [show shimFieldsArray (pre ++ n :: post) m =
      shimFieldsMerge m (shimFieldsPairs (pre ++ n :: post) 0) from rfl]
    rw [shimFieldsMerge_pairs_found pre post n 0 m h1 h2]
    simp
  have c2 : shimFieldsArray (pre ++ n :: post) m k2 = m k2 := by
    rw [show shimFieldsArray (pre ++ n :: post) m =
      shimFieldsMerge m (shimFieldsPairs (pre ++ n :: post) 0) from rfl]
    exact shimFieldsMerge_notMem _ m k2 (fun kv hkv heq =>
      hk (heq ▸ shimFieldsPairs_key_mem _ 0 kv hkv))
  refine ⟨c1, c2, ?_, ?_, by decide, by decide⟩
  · simp [fieldDefaultsMap, c1]
  · simp [fieldDefaultsMap, c2, hmk]

/-- Witness for amended claim C9 at the spec's own example: field first with
a pre-existing label X, the shim's fields called with the names array; the
label survives, position 0 is filled in, and a default for the absent name
last is applied afterwards. -/
theorem claim9_amended_witness :
    ("first" ∉ ([] : List String) ∧ "first" ∉ (["last"] : List String)
      ∧ "second" ∉ ([] : List String) ++ "first" :: ["last"]
      ∧ (updateField emptyFieldMap "first" (Entry.mk (some "X") none none)) "second" = none)
    ∧ shimFieldsArray (([] : List String) ++ "first" :: ["last"])
        (updateField emptyFieldMap "first" (Entry.mk (some "X") none none)) "first" =
      some (mergeEntry
        ((updateField emptyFieldMap "first" (Entry.mk (some "X") none none)) "first")
        (posEntry ([] : List String).length)) :=
  ⟨⟨by decide, by decide, by decide, by decide⟩,
    (claim9_amended_fields_merge [] ["last"] "first" "second"
      (updateField emptyFieldMap "first" (Entry.mk (some "X") none none))
      emptyFieldMap (by decide) (by decide) (by decide) (by decide)).1⟩

/-- Claim C10 (code bug): every call to FieldConfigurator.configure throws a
ReferenceError because the identifiers self and lodash underscore are unbound
in the module, so the chained configuration of field x with label, position
and type never produces a field map entry at all. -/
theorem claim10_configurator_reference_error :
    (∀ (fc : FieldConfigurator) (cfg : Entry),
      fc.configure cfg = Except.error JsRefError.referenceError)
    ∧ fcChain = Except.error JsRefError.referenceError :=
  ⟨fun _ _ => rfl, rfl⟩
